import Mathlib

/-!
Verification development for the Gatekeeper API (FastAPI-Pipeline).

The definitions below are a shallow embedding of `app/main.py`:
the authentication-verdict engine (`auth_verdict_from_headers`, built from
the header scanner, the regex-based signal extractor and the verdict
resolver) and the ticket lifecycle orchestrator (`create_ticket`,
`get_ticket`).  Strings are modelled over `List Char`; Python's `str.lower`,
`\w`, `\s` and `[a-zA-Z]` are modelled on their ASCII/Latin-1 behaviour
(header text is ASCII; case mappings of code points outside that range are
not modelled).
-/

/-- ASCII lowercasing of one character, the behaviour of Python `str.lower`
on ASCII text (Lean's `Char.toLower` is exactly the ASCII mapping). -/
def lowerChar (c : Char) : Char := Char.toLower c

/-- Lowercase a character list (models `line.lower()` on ASCII text). -/
def lowerL (cs : List Char) : List Char := cs.map lowerChar

/-- A character at which Python `str.splitlines` breaks a line.  Besides
`\n`, `\r` (and the pair `\r\n`, handled in `splitlinesAux`), Python also
breaks at `\v`, `\f`, the separators `\x1c`-`\x1e`, `\x85`, ` ` and
` `. -/
def isLineBreakChar (c : Char) : Bool :=
  c = '\n' || c = '\r' || c = '\x0b' || c = '\x0c' ||
  c = '\x1c' || c = '\x1d' || c = '\x1e' ||
  c = '\x85' || c = ' ' || c = ' '

/-- Worker for `pySplitlines`: `acc` holds the current (reversed) line. -/
def splitlinesAux : List Char → List Char → List (List Char)
  | [], [] => []
  | [], acc => [acc.reverse]
  | '\r' :: '\n' :: rest, acc => acc.reverse :: splitlinesAux rest []
  | c :: rest, acc =>
    if isLineBreakChar c then acc.reverse :: splitlinesAux rest []
    else splitlinesAux rest (c :: acc)

/-- Python `raw_headers.splitlines()`: split at line-break characters,
treating `\r\n` as a single break and producing no trailing empty line. -/
def pySplitlines (cs : List Char) : List (List Char) := splitlinesAux cs []

/-- Python `s.startswith(pre)`. -/
def pyStartswith (pre cs : List Char) : Bool := pre.isPrefixOf cs

/-- The header scanner of `auth_verdict_from_headers` (the `for line in
raw_headers.splitlines()` loop): keep every line whose lowercasing starts
with `authentication-results`, with the source's redundant `elif` branch
for `authentication-results-original` kept as written. -/
def selectAuthLines : List (List Char) → List (List Char)
  | [] => []
  | l :: ls =>
    if pyStartswith "authentication-results".data (lowerL l) then
      l :: selectAuthLines ls
    else if pyStartswith "authentication-results-original".data (lowerL l) then
      l :: selectAuthLines ls
    else selectAuthLines ls

/-- The candidate authentication-results lines of a raw header block. -/
def candidateLines (raw : List Char) : List (List Char) :=
  selectAuthLines (pySplitlines raw)

/-- Python regex `\s` on Latin-1 text: whitespace characters the pattern
`\s*` around `=` can absorb. -/
def pyIsSpace (c : Char) : Bool :=
  c = ' ' || c = '\t' || c = '\n' || c = '\r' || c = '\x0b' || c = '\x0c' ||
  c = '\x1c' || c = '\x1d' || c = '\x1e' || c = '\x1f' ||
  c = '\x85' || c = '\xa0'

/-- Python regex `\w` on ASCII text: a word character, used by the `\b`
word boundary in `_RESULT_RE`. -/
def isWordChar (c : Char) : Bool := c.isAlpha || c.isDigit || c = '_'

/-- An ASCII letter, the character class `[a-zA-Z]` of `_RESULT_RE`. -/
def isAsciiLetter (c : Char) : Bool := c.isAlpha

/-- Case-insensitive match of the literal keyword `kw` (given lowercase)
at the head of `cs`, as `re.IGNORECASE` matching does. -/
def ciPrefix (kw cs : List Char) : Bool :=
  lowerL (cs.take kw.length) = kw

/-- The alternation `(spf|dkim|dmarc)` of `_RESULT_RE` at the head of
`cs`: on success, the raw matched characters and the remainder.  The three
keywords are mutually non-ambiguous, so the alternation is committed. -/
def matchKeyword (cs : List Char) : Option (List Char × List Char) :=
  if ciPrefix "spf".data cs then some (cs.take 3, cs.drop 3)
  else if ciPrefix "dkim".data cs then some (cs.take 4, cs.drop 4)
  else if ciPrefix "dmarc".data cs then some (cs.take 5, cs.drop 5)
  else none

/-- The pieces of one match of `_RESULT_RE` (without the leading `\b`):
the raw mechanism characters, the whitespace around `=`, the raw result
word (group 2) and the unconsumed remainder of the line. -/
structure PatMatch where
  mechRaw : List Char
  ws1 : List Char
  ws2 : List Char
  wordRaw : List Char
  rest : List Char
deriving DecidableEq

/-- Match `(spf|dkim|dmarc)\s*=\s*([a-zA-Z]+)` at the head of `cs`
(case-insensitively, the word group greedy-maximal, as the Python regex
engine resolves it). -/
def matchPat (cs : List Char) : Option PatMatch :=
  match matchKeyword cs with
  | none => none
  | some (mechRaw, r1) =>
    let ws1 := r1.takeWhile pyIsSpace
    match r1.dropWhile pyIsSpace with
    | [] => none
    | e :: r3 =>
      if e = '=' then
        let ws2 := r3.takeWhile pyIsSpace
        let r4 := r3.dropWhile pyIsSpace
        let w := r4.takeWhile isAsciiLetter
        if w.isEmpty then none
        else some ⟨mechRaw, ws1, ws2, w, r4.dropWhile isAsciiLetter⟩
      else none

/-- One step of `_RESULT_RE.finditer(l)`: try each position left to right;
a match may only start where the previous character is not a word
character (the `\b` boundary; `prev` records whether it was), matches do
not overlap, and each match yields the lowercased `(mechanism, result)`
pair exactly as the loop body `k, v = group(1).lower(), group(2).lower()`
does.  `fuel` only bounds the recursion; `fuel = cs.length` never runs
out. -/
def scanAux : Nat → Bool → List Char → List (List Char × List Char)
  | 0, _, _ => []
  | _ + 1, _, [] => []
  | fuel + 1, prev, c :: cs =>
    if prev then scanAux fuel (isWordChar c) cs
    else
      match matchPat (c :: cs) with
      | some pm => (lowerL pm.mechRaw, lowerL pm.wordRaw) :: scanAux fuel true pm.rest
      | none => scanAux fuel (isWordChar c) cs

/-- All matches of `_RESULT_RE.finditer` on one line, in document order,
lowercased. -/
def scanLine (l : List Char) : List (List Char × List Char) :=
  scanAux l.length false l

/-- Python `found.setdefault(k, v)` on a dict modelled as an association
list with distinct keys: keep the existing entry for `k`, otherwise append
`(k, v)`. -/
def setdefault (found : List (List Char × List Char)) (k v : List Char) :
    List (List Char × List Char) :=
  if found.any (fun p => p.1 = k) then found else found ++ [(k, v)]

/-- Python `found.get(k)` on the association-list dict. -/
def getA (found : List (List Char × List Char)) (k : List Char) :
    Option (List Char) :=
  match found with
  | [] => none
  | (k', v) :: rest => if k = k' then some v else getA rest k

/-- The signal-extraction loop of `auth_verdict_from_headers`: over the
candidate lines in order, over each line's matches in order, keep the
first seen result for each mechanism (`found.setdefault(k, v)`). -/
def extractFound (raw : List Char) : List (List Char × List Char) :=
  (candidateLines raw).foldl
    (fun acc l => (scanLine l).foldl (fun a p => setdefault a p.1 p.2) acc) []

/-- The verdict record returned by `auth_verdict_from_headers`. -/
structure Verdict where
  spf : Option (List Char)
  dkim : Option (List Char)
  dmarc : Option (List Char)
  overall : List Char
deriving DecidableEq

/-- The `present` list of the verdict resolver:
`[x for x in (spf, dkim, dmarc) if x is not None]`. -/
def presentList (spf dkim dmarc : Option (List Char)) : List (List Char) :=
  [spf, dkim, dmarc].filterMap id

/-- The `derive overall` block of `auth_verdict_from_headers`: `unknown`
when nothing was found, `fail` when any present value differs from
`pass`, else the chained comparison `spf == dkim == dmarc == "pass"`
decides between `pass` and `fail`. -/
def deriveOverall (spf dkim dmarc : Option (List Char)) : List Char :=
  let present := presentList spf dkim dmarc
  if present = [] then "unknown".data
  else if present.any (fun v => v ≠ "pass".data) then "fail".data
  else if spf = dkim ∧ dkim = dmarc ∧ dmarc = some "pass".data then "pass".data
  else "fail".data

/-- Function `auth_verdict_from_headers` of `app/main.py`: scan candidate lines,
extract first-seen per-mechanism results, and derive the overall
verdict. -/
def auth_verdict_from_headers (raw : List Char) : Verdict :=
  let found := extractFound raw
  let spf := getA found "spf".data
  let dkim := getA found "dkim".data
  let dmarc := getA found "dmarc".data
  ⟨spf, dkim, dmarc, deriveOverall spf dkim dmarc⟩

/-- Python `",".join(us)` on lists of characters. -/
def joinCommaL : List (List Char) → List Char
  | [] => []
  | [u] => u
  | u :: us => u ++ ',' :: joinCommaL us

/-- Python `s.split(",")` on lists of characters: split at every comma;
the empty string yields one empty piece. -/
def splitCommaL : List Char → List (List Char)
  | [] => [[]]
  | c :: rest =>
    if c = ',' then [] :: splitCommaL rest
    else
      match splitCommaL rest with
      | [] => [[c]]
      | h :: t => (c :: h) :: t

/-- The deserialization `r[5].split(",") if r[5] else []` used by both
`get_ticket` and `list_tickets`: an empty stored string (falsy in Python)
yields the empty list. -/
def urlsOut (s : List Char) : List (List Char) :=
  if s = [] then [] else splitCommaL s

/-- The request body of `POST /tickets` (`TicketIn` of `app/main.py`).
`urls` is `Optional[List[str]]` with default `[]` in the source and is
read only as `t.urls or []`, under which `None` and `[]` coincide, so it
is modelled as a plain list. -/
structure TicketIn where
  reporter : List Char
  title : List Char
  body : List Char
  urls : List (List Char)
  headers : List Char
deriving DecidableEq

/-- The response of `POST /tickets` (`TicketOut` of `app/main.py`). -/
structure TicketOut where
  ticket_id : Nat
  status : List Char
deriving DecidableEq

/-- Outcome of the analyzer-gateway call of `create_ticket`: the `try`
block either obtains a response that passes `raise_for_status` (success,
with its body `resp.text`) or raises (timeout, transport error or
non-success status, with the exception's description `str(e)`). -/
inductive GatewayOutcome
  | success (body : List Char)
  | failure (desc : List Char)
deriving DecidableEq

/-- Whether the gateway call failed (`analyzer_call_ok = False`). -/
def GatewayOutcome.failed : GatewayOutcome → Bool
  | .success _ => false
  | .failure _ => true

/-- The first entry of the `analysis` dict: `html` with the response body
on success, `error` with the exception description on failure. -/
inductive AnalyzerField
  | html (s : List Char)
  | error (s : List Char)
deriving DecidableEq

/-- The stored `analyzer_result` object after `analysis["verdict"] =
verdict`: the html-or-error field together with the attached verdict. -/
structure AnalysisResult where
  field : AnalyzerField
  verdict : Verdict
deriving DecidableEq

/-- One row of the `tickets` table. -/
structure TicketRec where
  id : Nat
  ts : Nat
  reporter : List Char
  title : List Char
  body : List Char
  urls : List Char
  headers : List Char
  analyzer_status : List Char
  analyzer_result : Option AnalysisResult
deriving DecidableEq

/-- SQLite `cur.lastrowid` for the `INTEGER PRIMARY KEY AUTOINCREMENT`
column: one more than the largest row id in the table. -/
def nextRowId (store : List TicketRec) : Nat :=
  (store.map TicketRec.id).foldl max 0 + 1

/-- The `UPDATE tickets SET analyzer_status=?, analyzer_result=? WHERE
id=?` statement: rewrite the two columns of every row with the given id,
in place. -/
def updateRec (store : List TicketRec) (i : Nat) (status : List Char)
    (result : Option AnalysisResult) : List TicketRec :=
  store.map (fun r =>
    if r.id = i then { r with analyzer_status := status, analyzer_result := result }
    else r)

/-- The `SELECT ... WHERE id=?` lookup of `get_ticket`. -/
def findRec (store : List TicketRec) (i : Nat) : Option TicketRec :=
  store.find? (fun r => r.id = i)

/-- One observable side effect of `create_ticket`: a persistence write
(the initial `INSERT` or the terminal `UPDATE`) or the outbound analyzer
call. -/
inductive Event
  | insert (row : TicketRec)
  | analyzerCall (headers : List Char)
  | update (i : Nat) (status : List Char) (result : Option AnalysisResult)
deriving DecidableEq

/-- Whether an event is a persistence write. -/
def Event.isWrite : Event → Bool
  | .insert _ => true
  | .update _ _ _ => true
  | .analyzerCall _ => false

/-- Whether an event is an outbound analyzer call. -/
def Event.isCall : Event → Bool
  | .analyzerCall _ => true
  | _ => false

/-- The outcome of one run of `create_ticket`: the table after both
writes, the ordered side effects, and the HTTP response. -/
structure CreateResult where
  store : List TicketRec
  events : List Event
  response : TicketOut
deriving DecidableEq

/-- Function `create_ticket` of `app/main.py`.  `now` is the wall clock value
`time.time()`; `outcome` is the analyzer gateway's behaviour on this
call.  Step 1 inserts the row with status `queued` and null result; step
2 performs the single outbound call; step 3 computes the verdict from the
raw headers regardless of the call's outcome and picks the status
(`analyzer_error` exactly on call failure, else the verdict's overall);
the `analysis` dict, assigned in both branches of the `try`, gets the
verdict attached; step 4 updates the same row in place. -/
def create_ticket (store : List TicketRec) (t : TicketIn) (now : Nat)
    (outcome : GatewayOutcome) : CreateResult :=
  let ticketId := nextRowId store
  let row0 : TicketRec :=
    ⟨ticketId, now, t.reporter, t.title, t.body, joinCommaL t.urls, t.headers,
      "queued".data, none⟩
  let store1 := store ++ [row0]
  let analysisField : AnalyzerField :=
    match outcome with
    | .success b => .html b
    | .failure e => .error e
  let verdict := auth_verdict_from_headers t.headers
  let status := if outcome.failed then "analyzer_error".data else verdict.overall
  let analysis : Option AnalysisResult := some ⟨analysisField, verdict⟩
  let store2 := updateRec store1 ticketId status analysis
  ⟨store2,
    [.insert row0, .analyzerCall t.headers, .update ticketId status analysis],
    ⟨ticketId, status⟩⟩

/-- The full record returned by `GET /tickets/t_id` with the stored urls
string deserialized. -/
structure TicketView where
  id : Nat
  ts : Nat
  reporter : List Char
  title : List Char
  body : List Char
  urls : List (List Char)
  headers : List Char
  analyzer_status : List Char
  analyzer_result : Option AnalysisResult
deriving DecidableEq

/-- Function `get_ticket` of `app/main.py`; the 404 branch is modelled as
`none`. -/
def get_ticket (store : List TicketRec) (i : Nat) : Option TicketView :=
  (findRec store i).map (fun r =>
    ⟨r.id, r.ts, r.reporter, r.title, r.body, urlsOut r.urls, r.headers,
      r.analyzer_status, r.analyzer_result⟩)

/-- One abbreviated record of `GET /tickets` (no headers, no result). -/
structure TicketSummary where
  id : Nat
  ts : Nat
  reporter : List Char
  title : List Char
  body : List Char
  urls : List (List Char)
  analyzer_status : List Char
deriving DecidableEq

/-- The row-to-summary projection of `list_tickets`. -/
def summarize (r : TicketRec) : TicketSummary :=
  ⟨r.id, r.ts, r.reporter, r.title, r.body, urlsOut r.urls, r.analyzer_status⟩

/-- Function `list_tickets` of `app/main.py`: all rows, `ORDER BY id DESC`,
abbreviated. -/
def list_tickets (store : List TicketRec) : List TicketSummary :=
  (List.insertionSort (fun a b => a.id ≥ b.id) store).map summarize

/-- The three mechanism names, lowercased. -/
def MechKeywords : List (List Char) := ["spf".data, "dkim".data, "dmarc".data]

/-- Written from the spec's words in 4.1: a line whose case-insensitive
prefix is `authentication-results` or `authentication-results-original`. -/
def claimAuthLine (l : List Char) : Bool :=
  pyStartswith "authentication-results".data (lowerL l) ||
  pyStartswith "authentication-results-original".data (lowerL l)

/-- Written from the spec's words in 4.2: the text `l` contains an
occurrence of the pattern `mech = word` with `mech` one of the three
mechanism names case-insensitively, optional whitespace around `=`, and a
word of one or more ASCII letters; `mech` and `w` are the lowercased
mechanism and word. -/
def PatOccursIn (l mech w : List Char) : Prop :=
  ∃ a m1 s1 s2 w1 b,
    l = a ++ (m1 ++ (s1 ++ ('=' :: (s2 ++ (w1 ++ b))))) ∧
    lowerL m1 = mech ∧ mech ∈ MechKeywords ∧
    (∀ c ∈ s1, pyIsSpace c) ∧ (∀ c ∈ s2, pyIsSpace c) ∧
    w1 ≠ [] ∧ (∀ c ∈ w1, isAsciiLetter c) ∧ lowerL w1 = w

/-- The selection loop keeps, in order, exactly the lines satisfying the
disjunction of the two prefix tests. -/
theorem selectAuthLines_eq_filter (ls : List (List Char)) :
    selectAuthLines ls = ls.filter claimAuthLine := by
  induction ls with
  | nil => rfl
  | cons l ls ih =>
    by_cases h1 : pyStartswith "authentication-results".data (lowerL l)
    · simp [selectAuthLines, claimAuthLine, h1, ih]
    · by_cases h2 : pyStartswith "authentication-results-original".data (lowerL l)
      · simp [selectAuthLines, claimAuthLine, h1, h2, ih]
      · simp [selectAuthLines, claimAuthLine, h1, h2, ih]

/-- C8: the header scanner splits the raw block on line boundaries (no
folding join) and selects, in document order, exactly the lines whose
case-insensitive prefix is `authentication-results` or
`authentication-results-original`; the result may be empty and there is
no error condition. -/
theorem C8_header_scanner (raw : List Char) :
    candidateLines raw = (pySplitlines raw).filter claimAuthLine := by
  unfold candidateLines
  exact selectAuthLines_eq_filter _

/-- Membership in the resolver's `present` list. -/
theorem mem_presentList {spf dkim dmarc : Option (List Char)} {v : List Char} :
    v ∈ presentList spf dkim dmarc ↔
      spf = some v ∨ dkim = some v ∨ dmarc = some v := by
  simp [presentList, eq_comm]

/-- C1: the verdict resolver yields `unknown` when no mechanism is
present; `fail` when some present value is not `pass`; and when all
present values are `pass` (with at least one present), it yields `pass`
exactly when all three mechanisms are present, `fail` otherwise. -/
theorem C1_verdict_resolver (spf dkim dmarc : Option (List Char)) :
    (presentList spf dkim dmarc = [] →
      deriveOverall spf dkim dmarc = "unknown".data) ∧
    ((∃ v ∈ presentList spf dkim dmarc, v ≠ "pass".data) →
      deriveOverall spf dkim dmarc = "fail".data) ∧
    (presentList spf dkim dmarc ≠ [] →
      (∀ v ∈ presentList spf dkim dmarc, v = "pass".data) →
      ((deriveOverall spf dkim dmarc = "pass".data ↔
          spf ≠ none ∧ dkim ≠ none ∧ dmarc ≠ none) ∧
        (¬(spf ≠ none ∧ dkim ≠ none ∧ dmarc ≠ none) →
          deriveOverall spf dkim dmarc = "fail".data))) := by
  refine ⟨fun h => by simp [deriveOverall, h], fun h => ?_, fun hne hall => ?_⟩
  · have hne : presentList spf dkim dmarc ≠ [] := by
      rcases h with ⟨v, hv, _⟩
      exact fun h0 => by simp [h0] at hv
    have hany : (presentList spf dkim dmarc).any (fun v => v ≠ "pass".data) = true := by
      rcases h with ⟨v, hv, hvp⟩
      simp only [List.any_eq_true, decide_eq_true_eq]
      exact ⟨v, hv, hvp⟩
    simp only [deriveOverall]
    rw [if_neg hne, if_pos hany]
  · have hany : (presentList spf dkim dmarc).any (fun v => v ≠ "pass".data) = false := by
      simp only [List.any_eq_false, decide_eq_true_eq, not_not]
      exact hall
    have hchain : (spf = dkim ∧ dkim = dmarc ∧ dmarc = some "pass".data) ↔
        (spf ≠ none ∧ dkim ≠ none ∧ dmarc ≠ none) := by
      constructor
      · rintro ⟨h1, h2, h3⟩
        subst h1; subst h2
        simp [h3]
      · rintro ⟨h1, h2, h3⟩
        rcases Option.ne_none_iff_exists'.mp h1 with ⟨sv, hs⟩
        rcases Option.ne_none_iff_exists'.mp h2 with ⟨dv, hd⟩
        rcases Option.ne_none_iff_exists'.mp h3 with ⟨mv, hm⟩
        have hsv : sv = "pass".data := hall _ (mem_presentList.mpr (Or.inl hs))
        have hdv : dv = "pass".data := hall _ (mem_presentList.mpr (Or.inr (Or.inl hd)))
        have hmv : mv = "pass".data := hall _ (mem_presentList.mpr (Or.inr (Or.inr hm)))
        subst hsv; subst hdv; subst hmv
        exact ⟨by rw [hs, hd], by rw [hd, hm], hm⟩
    constructor
    · by_cases hc : spf = dkim ∧ dkim = dmarc ∧ dmarc = some "pass".data
      · simp only [deriveOverall, if_neg hne, hany, Bool.false_eq_true, if_false, if_pos hc]
        simp [hchain.mp hc]
      · simp only [deriveOverall, if_neg hne, hany, Bool.false_eq_true, if_false, if_neg hc]
        constructor
        · intro hpf
          exact absurd hpf (by decide)
        · intro hall3
          exact absurd (hchain.mpr hall3) hc
    · intro hnall
      have hc : ¬(spf = dkim ∧ dkim = dmarc ∧ dmarc = some "pass".data) :=
        fun hch => hnall (hchain.mp hch)
      simp [deriveOverall, hne, hany, hc]

/-- C1's resolver applied at a concrete input discharging each arm's
hypothesis: the empty mapping resolves to `unknown`, a mapping with a
non-`pass` value resolves to `fail`, and the all-`pass` partial mapping
with only dkim present resolves to `fail` while the full triplet resolves
to `pass`. -/
theorem C1_verdict_resolver_witness :
    deriveOverall none none none = "unknown".data ∧
    deriveOverall (some "softfail".data) (some "pass".data) none = "fail".data ∧
    deriveOverall none (some "pass".data) none = "fail".data ∧
    deriveOverall (some "pass".data) (some "pass".data) (some "pass".data) =
      "pass".data := by
  refine ⟨(C1_verdict_resolver none none none).1 (by decide),
    (C1_verdict_resolver (some "softfail".data) (some "pass".data) none).2.1 ?_,
    ((C1_verdict_resolver none (some "pass".data) none).2.2 (by decide)
      (by decide)).2 (by decide),
    ?_⟩
  · exact ⟨"softfail".data, by decide⟩
  · have h := ((C1_verdict_resolver (some "pass".data) (some "pass".data)
      (some "pass".data)).2.2 (by decide) (by decide)).1
    exact h.mpr (by decide)

/-- All `(mechanism, result)` matches of the whole scan, candidate lines
in document order, each line's matches in order. -/
def allMatches (raw : List Char) : List (List Char × List Char) :=
  ((candidateLines raw).map scanLine).flatten

/-- An entry already present survives appending. -/
theorem getA_append_of_some {l1 : List (List Char × List Char)} {k v : List Char}
    (l2 : List (List Char × List Char)) (h : getA l1 k = some v) :
    getA (l1 ++ l2) k = some v := by
  induction l1 with
  | nil => simp [getA] at h
  | cons p l1 ih =>
    rcases p with ⟨k', v'⟩
    by_cases hk : k = k'
    · simp only [getA, if_pos hk] at h
      simp [getA, hk, h]
    · simp only [getA, if_neg hk] at h
      simp only [List.cons_append, getA, if_neg hk]
      exact ih h

/-- Lookup skips over a block holding no entry for the key. -/
theorem getA_append_of_none {l1 : List (List Char × List Char)} {k : List Char}
    (l2 : List (List Char × List Char)) (h : getA l1 k = none) :
    getA (l1 ++ l2) k = getA l2 k := by
  induction l1 with
  | nil => rfl
  | cons p l1 ih =>
    rcases p with ⟨k', v'⟩
    by_cases hk : k = k'
    · simp [getA, hk] at h
    · simp only [getA, if_neg hk] at h
      simp only [List.cons_append, getA, if_neg hk]
      exact ih h

/-- The guard of `setdefault` agrees with `getA`: the key is absent
exactly when no pair carries it. -/
theorem getA_eq_none_iff_any (found : List (List Char × List Char))
    (k : List Char) :
    getA found k = none ↔ found.any (fun p => p.1 = k) = false := by
  induction found with
  | nil => simp [getA]
  | cons p rest ih =>
    rcases p with ⟨k', v'⟩
    by_cases hk : k = k'
    · simp [getA, hk]
    · simp [getA, hk, ih, Ne.symm hk]

/-- Applying `setdefault` after the key is bound changes nothing at that key. -/
theorem getA_setdefault_of_some {acc : List (List Char × List Char)}
    {k v : List Char} (k' v' : List Char) (h : getA acc k = some v) :
    getA (setdefault acc k' v') k = some v := by
  unfold setdefault
  split
  · exact h
  · exact getA_append_of_some _ h

/-- Folding `setdefault` over further matches never changes a key already
bound. -/
theorem getA_foldl_setdefault_of_some
    (ms : List (List Char × List Char)) {acc : List (List Char × List Char)}
    {k v : List Char} (h : getA acc k = some v) :
    getA (ms.foldl (fun a p => setdefault a p.1 p.2) acc) k = some v := by
  induction ms generalizing acc with
  | nil => exact h
  | cons p ms ih => exact ih (getA_setdefault_of_some p.1 p.2 h)

/-- Folding `setdefault` over matches from an accumulator without the key
binds the key to the first match carrying it. -/
theorem getA_foldl_setdefault_of_none
    (ms : List (List Char × List Char)) {acc : List (List Char × List Char)}
    {k : List Char} (h : getA acc k = none) :
    getA (ms.foldl (fun a p => setdefault a p.1 p.2) acc) k =
      (ms.find? (fun p => p.1 = k)).map Prod.snd := by
  induction ms generalizing acc with
  | nil => exact h
  | cons p ms ih =>
    rcases p with ⟨k', v'⟩
    by_cases hk : k' = k
    · subst hk
      have hguard : acc.any (fun p => p.1 = k') = false :=
        (getA_eq_none_iff_any acc k').mp h
      have hset : getA (setdefault acc k' v') k' = some v' := by
        unfold setdefault
        rw [hguard]
        simp only [Bool.false_eq_true, if_false]
        rw [getA_append_of_none _ h]
        simp [getA]
      rw [List.foldl_cons,
        getA_foldl_setdefault_of_some ms hset,
        List.find?_cons_of_pos _ (by simp)]
      rfl
    · have hk2 : ¬k = k' := fun hkk => hk hkk.symm
      have hset : getA (setdefault acc k' v') k = none := by
        unfold setdefault
        split
        · exact h
        · rw [getA_append_of_none _ h]
          simp [getA, hk2]
      rw [List.foldl_cons, ih hset,
        List.find?_cons_of_neg _ (by simp [hk])]

/-- The nested extraction loop is the fold of `setdefault` over the flat
stream of matches. -/
theorem extractFound_eq_foldl (raw : List Char) :
    extractFound raw =
      (allMatches raw).foldl (fun a p => setdefault a p.1 p.2) [] := by
  simp [extractFound, allMatches, List.foldl_flatten, List.foldl_map]

/-- C4: across the whole scan, each mechanism's retained value is exactly
that of the first match for it in document order; all later matches for
an already-seen mechanism are discarded. -/
theorem C4_first_seen_wins (raw k : List Char) :
    getA (extractFound raw) k =
      ((allMatches raw).find? (fun p => p.1 = k)).map Prod.snd := by
  rw [extractFound_eq_foldl]
  exact getA_foldl_setdefault_of_none _ rfl

/-- A successful keyword match consumes a case-insensitive copy of one of
the three mechanism names. -/
theorem matchKeyword_spec {cs m r : List Char}
    (h : matchKeyword cs = some (m, r)) :
    cs = m ++ r ∧ lowerL m ∈ MechKeywords := by
  unfold matchKeyword at h
  split_ifs at h with h1 h2 h3 <;>
    simp only [Option.some.injEq, Prod.mk.injEq] at h <;>
    obtain ⟨hm, hr⟩ := h <;> subst hm <;> subst hr <;>
    refine ⟨(List.take_append_drop _ cs).symm, ?_⟩
  · simp only [ciPrefix, decide_eq_true_eq] at h1
    rw [show ("spf".data.length = 3) from rfl] at h1
    simp [MechKeywords, h1]
  · simp only [ciPrefix, decide_eq_true_eq] at h2
    rw [show ("dkim".data.length = 4) from rfl] at h2
    simp [MechKeywords, h2]
  · simp only [ciPrefix, decide_eq_true_eq] at h3
    rw [show ("dmarc".data.length = 5) from rfl] at h3
    simp [MechKeywords, h3]

/-- A successful pattern match decomposes its input into the claim's
pattern pieces: a case-insensitive mechanism name, optional whitespace,
`=`, optional whitespace, and a nonempty maximal ASCII-letter word. -/
theorem matchPat_spec {cs : List Char} {pm : PatMatch}
    (h : matchPat cs = some pm) :
    cs = pm.mechRaw ++ (pm.ws1 ++ ('=' :: (pm.ws2 ++ (pm.wordRaw ++ pm.rest)))) ∧
    lowerL pm.mechRaw ∈ MechKeywords ∧
    (∀ c ∈ pm.ws1, pyIsSpace c) ∧ (∀ c ∈ pm.ws2, pyIsSpace c) ∧
    pm.wordRaw ≠ [] ∧ (∀ c ∈ pm.wordRaw, isAsciiLetter c) := by
  cases hk : matchKeyword cs with
  | none => simp [matchPat, hk] at h
  | some mr =>
    obtain ⟨m, r1⟩ := mr
    simp only [matchPat, hk] at h
    cases hd : r1.dropWhile pyIsSpace with
    | nil => rw [hd] at h; exact absurd h (by simp)
    | cons e r3 =>
      rw [hd] at h
      simp only [] at h
      by_cases he : e = '='
      · rw [if_pos he] at h
        subst he
        by_cases hw : ((r3.dropWhile pyIsSpace).takeWhile isAsciiLetter).isEmpty
        · rw [if_pos hw] at h
          exact absurd h (by simp)
        · rw [if_neg hw] at h
          simp only [Option.some.injEq] at h
          subst h
          obtain ⟨hcs, hmem⟩ := matchKeyword_spec hk
          refine ⟨?_, hmem, fun c hc => List.mem_takeWhile_imp hc,
            fun c hc => List.mem_takeWhile_imp hc, ?_,
            fun c hc => List.mem_takeWhile_imp hc⟩
          · show cs = m ++ (r1.takeWhile pyIsSpace ++ ('=' :: (r3.takeWhile pyIsSpace ++
              ((r3.dropWhile pyIsSpace).takeWhile isAsciiLetter ++
                (r3.dropWhile pyIsSpace).dropWhile isAsciiLetter))))
            rw [hcs]
            congr 1
            rw [List.takeWhile_append_dropWhile (p := isAsciiLetter)
              (l := r3.dropWhile pyIsSpace)]
            rw [List.takeWhile_append_dropWhile (p := pyIsSpace) (l := r3)]
            rw [← hd]
            rw [List.takeWhile_append_dropWhile (p := pyIsSpace) (l := r1)]
          · show (r3.dropWhile pyIsSpace).takeWhile isAsciiLetter ≠ []
            intro hx
            rw [hx] at hw
            simp at hw
      · rw [if_neg he] at h
        exact absurd h (by simp)

/-- An occurrence of the pattern in a suffix is an occurrence in the whole
text. -/
theorem PatOccursIn.prepend {t mech w : List Char} (pre : List Char)
    (h : PatOccursIn t mech w) : PatOccursIn (pre ++ t) mech w := by
  obtain ⟨a, m1, s1, s2, w1, b, heq, hm, hmem, hs1, hs2, hw1, hal, hlw⟩ := h
  exact ⟨pre ++ a, m1, s1, s2, w1, b,
    by rw [heq, List.append_assoc], hm, hmem, hs1, hs2, hw1, hal, hlw⟩

/-- Every pair the scanner emits is an occurrence of the claim's pattern
in the scanned text. -/
theorem scanAux_sound :
    ∀ (fuel : Nat) (prev : Bool) (cs k v : List Char),
      (k, v) ∈ scanAux fuel prev cs → PatOccursIn cs k v := by
  intro fuel
  induction fuel with
  | zero => intro prev cs k v h; simp [scanAux] at h
  | succ fuel ih =>
    intro prev cs k v h
    match cs with
    | [] => simp [scanAux] at h
    | c :: cs' =>
      simp only [scanAux] at h
      split at h
      · exact PatOccursIn.prepend [c] (ih _ _ _ _ h)
      · split at h
        · rename_i pm hpm
          obtain ⟨hdec, hmem, hs1, hs2, hw1, hal⟩ := matchPat_spec hpm
          rcases List.mem_cons.mp h with heq | htail
          · simp only [Prod.mk.injEq] at heq
            obtain ⟨hk, hv⟩ := heq
            subst hk; subst hv
            exact ⟨[], pm.mechRaw, pm.ws1, pm.ws2, pm.wordRaw, pm.rest,
              by rw [List.nil_append]; exact hdec, rfl, hmem, hs1, hs2, hw1, hal, rfl⟩
          · have hocc := ih _ _ _ _ htail
            have hsplit : c :: cs' =
                (pm.mechRaw ++ (pm.ws1 ++ ('=' :: (pm.ws2 ++ pm.wordRaw)))) ++ pm.rest := by
              rw [hdec]; simp [List.append_assoc]
            rw [hsplit]
            exact PatOccursIn.prepend _ hocc
        · exact PatOccursIn.prepend [c] (ih _ _ _ _ h)

/-- Every pair `scanLine` emits occurs as the claim's pattern in the
line. -/
theorem scanLine_sound {l k v : List Char} (h : (k, v) ∈ scanLine l) :
    PatOccursIn l k v :=
  scanAux_sound _ _ _ _ _ h

/-- Python `setdefault` adds no pair of its own making. -/
theorem mem_setdefault {acc : List (List Char × List Char)}
    {p : List Char × List Char} {k v : List Char}
    (h : p ∈ setdefault acc k v) : p ∈ acc ∨ p = (k, v) := by
  unfold setdefault at h
  split at h
  · exact Or.inl h
  · rcases List.mem_append.mp h with h1 | h1
    · exact Or.inl h1
    · exact Or.inr (List.mem_singleton.mp h1)

/-- Every pair surviving the `setdefault` fold came in through the
accumulator or the match stream. -/
theorem mem_foldl_setdefault {ms : List (List Char × List Char)} :
    ∀ {acc : List (List Char × List Char)} {p : List Char × List Char},
      p ∈ ms.foldl (fun a q => setdefault a q.1 q.2) acc → p ∈ acc ∨ p ∈ ms := by
  induction ms with
  | nil => exact fun h => Or.inl h
  | cons q ms ih =>
    intro acc p h
    rw [List.foldl_cons] at h
    rcases ih h with h1 | h1
    · rcases mem_setdefault h1 with h2 | h2
      · exact Or.inl h2
      · exact Or.inr (by rw [h2]; exact List.mem_cons_self _ _)
    · exact Or.inr (List.mem_cons_of_mem _ h1)

/-- Every pair of the extracted mapping is a pair of the match stream. -/
theorem mem_extractFound {raw : List Char} {p : List Char × List Char}
    (h : p ∈ extractFound raw) : p ∈ allMatches raw := by
  rw [extractFound_eq_foldl] at h
  rcases mem_foldl_setdefault h with h1 | h1
  · simp at h1
  · exact h1

/-- Every pair of the match stream was scanned out of some candidate
line. -/
theorem allMatches_mem {raw : List Char} {p : List Char × List Char}
    (h : p ∈ allMatches raw) : ∃ l ∈ candidateLines raw, p ∈ scanLine l := by
  simp only [allMatches, List.mem_flatten, List.mem_map] at h
  rcases h with ⟨s, ⟨l, hl, hs⟩, hp⟩
  exact ⟨l, hl, by rw [hs]; exact hp⟩

/-- Python `setdefault` preserves distinctness of the stored keys. -/
theorem keys_nodup_setdefault {acc : List (List Char × List Char)}
    (k v : List Char) (h : (acc.map Prod.fst).Nodup) :
    ((setdefault acc k v).map Prod.fst).Nodup := by
  unfold setdefault
  split
  · exact h
  · rename_i hany
    have hnot : k ∉ acc.map Prod.fst := by
      intro hk
      rcases List.mem_map.mp hk with ⟨q, hq, hqk⟩
      exact hany (List.any_eq_true.mpr ⟨q, hq, by simp [hqk]⟩)
    simp [List.nodup_append, h, hnot]

/-- The `setdefault` fold preserves distinctness of the stored keys. -/
theorem keys_nodup_foldl {ms : List (List Char × List Char)} :
    ∀ {acc : List (List Char × List Char)}, (acc.map Prod.fst).Nodup →
      ((ms.foldl (fun a q => setdefault a q.1 q.2) acc).map Prod.fst).Nodup := by
  induction ms with
  | nil => exact fun h => h
  | cons q ms ih =>
    intro acc h
    rw [List.foldl_cons]
    exact ih (keys_nodup_setdefault q.1 q.2 h)

/-- C7 (amended): each entry of the extracted mapping is keyed by one of
the three mechanism names and arises from an occurrence of the pattern
`mechanism = word` (case-insensitive mechanism, optional whitespace
around `=`, one or more ASCII letters, both parts lowercased) in some
candidate line; the mapping's keys are distinct, so it has at most three
entries and simply no entry for an absent mechanism.  (Not every textual
occurrence of the pattern yields an entry: the scan is left-to-right,
non-overlapping and requires a word boundary before the mechanism.) -/
theorem C7_signal_extractor_sound (raw : List Char) :
    ((extractFound raw).map Prod.fst).Nodup ∧
    (extractFound raw).length ≤ 3 ∧
    ∀ p ∈ extractFound raw,
      p.1 ∈ MechKeywords ∧ ∃ l ∈ candidateLines raw, PatOccursIn l p.1 p.2 := by
  have hnodup : ((extractFound raw).map Prod.fst).Nodup := by
    rw [extractFound_eq_foldl]
    exact keys_nodup_foldl (by simp)
  have hsound : ∀ p ∈ extractFound raw,
      p.1 ∈ MechKeywords ∧ ∃ l ∈ candidateLines raw, PatOccursIn l p.1 p.2 := by
    intro p hp
    rcases allMatches_mem (mem_extractFound hp) with ⟨l, hl, hpl⟩
    have hocc : PatOccursIn l p.1 p.2 := by
      rcases p with ⟨k, v⟩
      exact scanLine_sound hpl
    obtain ⟨a, m1, s1, s2, w1, b, heq, hm, hmem, hrest⟩ := hocc
    exact ⟨hmem, l, hl, ⟨a, m1, s1, s2, w1, b, heq, hm, hmem, hrest⟩⟩
  refine ⟨hnodup, ?_, hsound⟩
  have hsub : (extractFound raw).map Prod.fst ⊆ MechKeywords := by
    intro k hk
    rcases List.mem_map.mp hk with ⟨p, hp, hpk⟩
    rw [← hpk]
    exact (hsound p hp).1
  have hle := (List.subperm_of_subset hnodup hsub).length_le
  rw [List.length_map] at hle
  exact hle

/-- C7's soundness applied at a concrete header: the extracted pair
`(spf, pass)` is present and indeed arises from a pattern occurrence in a
candidate line. -/
theorem C7_signal_extractor_sound_witness :
    ("spf".data, "pass".data) ∈
      extractFound "Authentication-Results: spf=pass; dkim=fail".data ∧
    ("spf".data ∈ MechKeywords ∧
      ∃ l ∈ candidateLines "Authentication-Results: spf=pass; dkim=fail".data,
        PatOccursIn l "spf".data "pass".data) :=
  ⟨by decide,
    (C7_signal_extractor_sound "Authentication-Results: spf=pass; dkim=fail".data).2.2
      ("spf".data, "pass".data) (by decide)⟩

/-- C7 as stated is false: in the candidate line
`authentication-results: spf=dkim=pass` the pattern `dkim = pass` occurs
(the claim then demands a recorded pair for dkim), but the extractor
records no dkim entry at all — the first-found match `spf=dkim` consumes
the text `spf=dkim`, and the regex scan never revisits the overlapped
occurrence. -/
theorem C7_counterexample :
    candidateLines "authentication-results: spf=dkim=pass".data =
      ["authentication-results: spf=dkim=pass".data] ∧
    PatOccursIn "authentication-results: spf=dkim=pass".data "dkim".data "pass".data ∧
    getA (extractFound "authentication-results: spf=dkim=pass".data) "dkim".data =
      none := by
  refine ⟨by decide, ?_, by decide⟩
  exact ⟨"authentication-results: spf=".data, "dkim".data, [], [], "pass".data, [],
    by decide, by decide, by decide, by decide, by decide, by decide, by decide,
    by decide⟩

/-- C5 as stated is false: this header text contains the tokens
`spf=pass`, `dkim=pass` and `dmarc=pass`, yet no line carries the
`authentication-results` prefix, so the scan finds nothing and the
verdict is `unknown`, not `pass`. -/
theorem C5_counterexample :
    PatOccursIn "spf=pass dkim=pass dmarc=pass".data "spf".data "pass".data ∧
    PatOccursIn "spf=pass dkim=pass dmarc=pass".data "dkim".data "pass".data ∧
    PatOccursIn "spf=pass dkim=pass dmarc=pass".data "dmarc".data "pass".data ∧
    (auth_verdict_from_headers "spf=pass dkim=pass dmarc=pass".data).overall =
      "unknown".data ∧
    (auth_verdict_from_headers "spf=pass dkim=pass dmarc=pass".data).overall ≠
      "pass".data := by
  refine ⟨?_, ?_, ?_, by decide, by decide⟩
  · exact ⟨[], "spf".data, [], [], "pass".data, " dkim=pass dmarc=pass".data,
      by decide, by decide, by decide, by decide, by decide, by decide, by decide,
      by decide⟩
  · exact ⟨"spf=pass ".data, "dkim".data, [], [], "pass".data, " dmarc=pass".data,
      by decide, by decide, by decide, by decide, by decide, by decide, by decide,
      by decide⟩
  · exact ⟨"spf=pass dkim=pass ".data, "dmarc".data, [], [], "pass".data, [],
      by decide, by decide, by decide, by decide, by decide, by decide, by decide,
      by decide⟩

/-- C5 (amended): whenever the scan of the candidate
authentication-results lines retains `pass` as the first-seen result for
each of spf, dkim and dmarc, the computed verdict has overall `pass`. -/
theorem C5_full_pass_triplet (raw : List Char)
    (hspf : getA (extractFound raw) "spf".data = some "pass".data)
    (hdkim : getA (extractFound raw) "dkim".data = some "pass".data)
    (hdmarc : getA (extractFound raw) "dmarc".data = some "pass".data) :
    (auth_verdict_from_headers raw).overall = "pass".data := by
  simp only [auth_verdict_from_headers]
  rw [hspf, hdkim, hdmarc]
  decide

/-- C5's amended statement applied at a concrete header carrying the
three tokens on an authentication-results line, in mixed casing and with
whitespace around `=`. -/
theorem C5_full_pass_triplet_witness :
    getA (extractFound "Authentication-Results: SPF = pass; dkim=pass; Dmarc=PASS".data)
      "spf".data = some "pass".data ∧
    (auth_verdict_from_headers
      "Authentication-Results: SPF = pass; dkim=pass; Dmarc=PASS".data).overall =
      "pass".data :=
  ⟨by decide,
    C5_full_pass_triplet _ (by decide) (by decide) (by decide)⟩

/-- The seed of a max-fold is a lower bound of the fold. -/
theorem foldl_max_le_init (l : List Nat) (a : Nat) : a ≤ l.foldl max a := by
  induction l generalizing a with
  | nil => exact le_refl a
  | cons x l ih => exact le_trans (le_max_left a x) (ih (max a x))

/-- Every member of a list bounds below its max-fold. -/
theorem mem_le_foldl_max {l : List Nat} {x : Nat} (h : x ∈ l) :
    ∀ a : Nat, x ≤ l.foldl max a := by
  induction l with
  | nil => cases h
  | cons y l ih =>
    intro a
    rcases List.mem_cons.mp h with h1 | h1
    · subst h1
      exact le_trans (le_max_right a x) (foldl_max_le_init l (max a x))
    · exact ih h1 (max a y)

/-- The freshly assigned row id differs from every existing row's id. -/
theorem id_ne_nextRowId {store : List TicketRec} {r : TicketRec}
    (h : r ∈ store) : r.id ≠ nextRowId store := by
  have hle : r.id ≤ (store.map TicketRec.id).foldl max 0 :=
    mem_le_foldl_max (List.mem_map_of_mem _ h) 0
  unfold nextRowId
  omega

/-- Updating the freshly inserted row and looking it up again returns
exactly that row with its two columns rewritten. -/
theorem findRec_update_fresh (store : List TicketRec) (row0 : TicketRec)
    (st : List Char) (res : Option AnalysisResult)
    (h : ∀ r ∈ store, r.id ≠ row0.id) :
    findRec (updateRec (store ++ [row0]) row0.id st res) row0.id =
      some { row0 with analyzer_status := st, analyzer_result := res } := by
  induction store with
  | nil => simp [findRec, updateRec, List.find?]
  | cons r store ih =>
    have hr : r.id ≠ row0.id := h r (List.mem_cons_self r store)
    have hrest : ∀ q ∈ store, q.id ≠ row0.id :=
      fun q hq => h q (List.mem_cons_of_mem r hq)
    simp only [List.cons_append, updateRec, List.map_cons, findRec] at ih ⊢
    rw [if_neg hr, List.find?_cons_of_neg _ (by simp [hr])]
    exact ih hrest

/-- A comma-free piece splits to itself. -/
theorem splitCommaL_of_no_comma {u : List Char} (h : ',' ∉ u) :
    splitCommaL u = [u] := by
  induction u with
  | nil => rfl
  | cons c u ih =>
    have hc : ¬(c = ',') := fun hc => h (by rw [hc]; exact List.mem_cons_self _ _)
    have hu : ',' ∉ u := fun hm => h (List.mem_cons_of_mem _ hm)
    simp only [splitCommaL, if_neg hc, ih hu]

/-- Splitting past a comma-free first piece peels it off. -/
theorem splitCommaL_append_comma {a : List Char} (b : List Char)
    (h : ',' ∉ a) : splitCommaL (a ++ ',' :: b) = a :: splitCommaL b := by
  induction a with
  | nil => simp [splitCommaL]
  | cons c a ih =>
    have hc : ¬(c = ',') := fun hc => h (by rw [hc]; exact List.mem_cons_self _ _)
    have ha : ',' ∉ a := fun hm => h (List.mem_cons_of_mem _ hm)
    simp only [List.cons_append, splitCommaL, if_neg hc, List.append_eq, ih ha]

/-- Join-then-split is the identity on nonempty lists of comma-free
pieces. -/
theorem splitCommaL_joinCommaL {us : List (List Char)} (hne : us ≠ [])
    (h : ∀ u ∈ us, ',' ∉ u) : splitCommaL (joinCommaL us) = us := by
  induction us with
  | nil => cases hne rfl
  | cons u vs ih =>
    cases vs with
    | nil => exact splitCommaL_of_no_comma (h u (List.mem_cons_self _ _))
    | cons v vs' =>
      show splitCommaL (u ++ ',' :: joinCommaL (v :: vs')) = u :: v :: vs'
      rw [splitCommaL_append_comma _ (h u (List.mem_cons_self _ _)),
        ih (by simp) (fun x hx => h x (List.mem_cons_of_mem _ hx))]

/-- The deserialization of the persisted urls string undoes the
serialization, for nonempty comma-free urls and for the empty list. -/
theorem urlsOut_joinCommaL {us : List (List Char)}
    (h : ∀ u ∈ us, u ≠ [] ∧ ',' ∉ u) : urlsOut (joinCommaL us) = us := by
  cases us with
  | nil => rfl
  | cons u vs =>
    have hne : joinCommaL (u :: vs) ≠ [] := by
      cases vs with
      | nil => exact (h u (List.mem_cons_self _ _)).1
      | cons v vs' => simp [joinCommaL]
    rw [urlsOut, if_neg hne]
    exact splitCommaL_joinCommaL (by simp) (fun x hx => (h x hx).2)

/-- The computed verdict's overall value is always one of `pass`, `fail`,
`unknown`. -/
theorem overall_mem_three (raw : List Char) :
    (auth_verdict_from_headers raw).overall ∈
      ["pass".data, "fail".data, "unknown".data] := by
  have h : ∀ s d m : Option (List Char),
      deriveOverall s d m ∈ ["pass".data, "fail".data, "unknown".data] := by
    intro s d m
    unfold deriveOverall
    by_cases h1 : presentList s d m = []
    · simp [h1]
    · rw [if_neg h1]
      by_cases h2 : (presentList s d m).any (fun v => v ≠ "pass".data) = true
      · rw [if_pos h2]; simp
      · rw [if_neg h2]
        split_ifs <;> simp
  exact h _ _ _

/-- C2: when the gateway call fails the terminal status is
`analyzer_error` regardless of the computed verdict, and the verdict —
computed over the raw headers — is still attached: the stored result is
the error description paired with the verdict; on success it is the
response body paired with the verdict. -/
theorem C2_gateway_failure_result (store : List TicketRec) (t : TicketIn)
    (now : Nat) (d b : List Char) :
    ((create_ticket store t now (.failure d)).response.status =
        "analyzer_error".data ∧
      (∃ r, findRec (create_ticket store t now (.failure d)).store
          (create_ticket store t now (.failure d)).response.ticket_id = some r ∧
        r.analyzer_status = "analyzer_error".data ∧
        r.analyzer_result =
          some ⟨.error d, auth_verdict_from_headers t.headers⟩)) ∧
    (∃ r, findRec (create_ticket store t now (.success b)).store
        (create_ticket store t now (.success b)).response.ticket_id = some r ∧
      r.analyzer_status = (auth_verdict_from_headers t.headers).overall ∧
      r.analyzer_result =
        some ⟨.html b, auth_verdict_from_headers t.headers⟩) := by
  have hfresh : ∀ r ∈ store, r.id ≠ nextRowId store :=
    fun r hr => id_ne_nextRowId hr
  refine ⟨⟨rfl, ?_⟩, ?_⟩
  · simp only [create_ticket]
    exact ⟨_, findRec_update_fresh store _ _ _ hfresh, rfl, rfl⟩
  · simp only [create_ticket]
    exact ⟨_, findRec_update_fresh store _ _ _ hfresh, rfl, rfl⟩

/-- C3: the row is inserted with status `queued`; the terminal status —
also the one Submit returns — is one of `pass`, `fail`, `unknown`,
`analyzer_error`, and it is `analyzer_error` exactly when the gateway
call failed, whatever the verdict would have been. -/
theorem C3_status_invariant (store : List TicketRec) (t : TicketIn)
    (now : Nat) (outcome : GatewayOutcome) :
    (∃ row0, (create_ticket store t now outcome).events.head? =
        some (.insert row0) ∧
      row0.analyzer_status = "queued".data ∧ row0.analyzer_result = none) ∧
    (create_ticket store t now outcome).response.status ∈
      ["pass".data, "fail".data, "unknown".data, "analyzer_error".data] ∧
    ((create_ticket store t now outcome).response.status =
        "analyzer_error".data ↔ outcome.failed = true) ∧
    (∃ r, findRec (create_ticket store t now outcome).store
        (create_ticket store t now outcome).response.ticket_id = some r ∧
      r.analyzer_status = (create_ticket store t now outcome).response.status) := by
  have hfresh : ∀ r ∈ store, r.id ≠ nextRowId store :=
    fun r hr => id_ne_nextRowId hr
  refine ⟨⟨_, rfl, rfl, rfl⟩, ?_, ?_, ?_⟩
  · cases outcome with
    | success b =>
      have h := overall_mem_three t.headers
      simp only [create_ticket, GatewayOutcome.failed, Bool.false_eq_true,
        if_false]
      simp only [List.mem_cons, List.mem_singleton] at h ⊢
      tauto
    | failure d => simp [create_ticket, GatewayOutcome.failed]
  · cases outcome with
    | success b =>
      simp only [create_ticket, GatewayOutcome.failed, Bool.false_eq_true,
        if_false]
      constructor
      · intro hov
        have h := overall_mem_three t.headers
        rw [hov] at h
        exact absurd h (by decide)
      · intro hf
        exact absurd hf (by simp)
    | failure d => simp [create_ticket, GatewayOutcome.failed]
  · simp only [create_ticket]
    exact ⟨_, findRec_update_fresh store _ _ _ hfresh, rfl⟩

/-- C6: one run of `create_ticket` performs exactly one outbound call and
exactly two persistence writes — the insert of the queued row with null
result and the in-place update of that same row — in that order, for
either gateway outcome, and the table grows by exactly one record. -/
theorem C6_side_effects (store : List TicketRec) (t : TicketIn) (now : Nat)
    (outcome : GatewayOutcome) :
    ((create_ticket store t now outcome).events.filter Event.isCall).length = 1 ∧
    ((create_ticket store t now outcome).events.filter Event.isWrite).length = 2 ∧
    (∃ row0 st a,
      (create_ticket store t now outcome).events =
        [.insert row0, .analyzerCall t.headers, .update row0.id st a] ∧
      row0.analyzer_status = "queued".data ∧ row0.analyzer_result = none) ∧
    (create_ticket store t now outcome).store.length = store.length + 1 := by
  refine ⟨?_, ?_, ⟨_, _, _, rfl, rfl, rfl⟩, ?_⟩
  · simp [create_ticket, Event.isCall, Event.isWrite, List.filter]
  · simp [create_ticket, Event.isCall, Event.isWrite, List.filter]
  · simp [create_ticket, updateRec]

/-- C9: the status Submit returns is a function of the raw header text
and the gateway call's success or failure alone; reporter, title, body,
urls, the pre-existing table, the clock and even the gateway's response
body or error text do not influence it. -/
theorem C9_status_noninterference (store1 store2 : List TicketRec)
    (t1 t2 : TicketIn) (now1 now2 : Nat) (o1 o2 : GatewayOutcome)
    (hh : t1.headers = t2.headers) (ho : o1.failed = o2.failed) :
    (create_ticket store1 t1 now1 o1).response.status =
      (create_ticket store2 t2 now2 o2).response.status := by
  simp only [create_ticket]
  rw [hh, ho]

/-- C9 applied to two concrete submissions differing in reporter, title,
body, urls, existing table, clock and response body, sharing only the
header text and a successful gateway call: equal statuses. -/
theorem C9_status_noninterference_witness :
    (⟨"alice@example.com".data, "Benign".data, "ok".data,
        ["https://zoom.us".data], "Authentication-Results: dkim=pass".data⟩ :
        TicketIn).headers =
      (⟨"bob@example.com".data, "Odd".data, "review".data, [],
        "Authentication-Results: dkim=pass".data⟩ : TicketIn).headers ∧
    (GatewayOutcome.success "AAA".data).failed =
      (GatewayOutcome.success "BBB".data).failed ∧
    (create_ticket [] ⟨"alice@example.com".data, "Benign".data, "ok".data,
        ["https://zoom.us".data], "Authentication-Results: dkim=pass".data⟩ 5
        (.success "AAA".data)).response.status =
      (create_ticket [⟨7, 1, "r".data, "t".data, "b".data, [],
          "h".data, "queued".data, none⟩]
        ⟨"bob@example.com".data, "Odd".data, "review".data, [],
          "Authentication-Results: dkim=pass".data⟩ 9
        (.success "BBB".data)).response.status :=
  ⟨rfl, rfl, C9_status_noninterference _ _ _ _ _ _ _ _ rfl rfl⟩

/-- C10: for a submission whose urls are nonempty and comma-free (and for
the empty urls list), the round trip through the comma-joined persisted
string is the identity: the record Get-by-id returns, and the entry List
returns for that ticket, carry exactly the submitted urls. -/
theorem C10_urls_roundtrip (store : List TicketRec) (t : TicketIn) (now : Nat)
    (outcome : GatewayOutcome)
    (h : ∀ u ∈ t.urls, u ≠ [] ∧ ',' ∉ u) :
    (get_ticket (create_ticket store t now outcome).store
        (create_ticket store t now outcome).response.ticket_id).map
      TicketView.urls = some t.urls ∧
    ∀ s ∈ list_tickets (create_ticket store t now outcome).store,
      s.id = (create_ticket store t now outcome).response.ticket_id →
        s.urls = t.urls := by
  have hfresh : ∀ r ∈ store, r.id ≠ nextRowId store :=
    fun r hr => id_ne_nextRowId hr
  constructor
  · simp only [create_ticket, get_ticket]
    rw [findRec_update_fresh store _ _ _ hfresh]
    show some (urlsOut (joinCommaL t.urls)) = some t.urls
    rw [urlsOut_joinCommaL h]
  · intro s hs hsid
    simp only [create_ticket] at hs hsid
    simp only [list_tickets] at hs
    rcases List.mem_map.mp hs with ⟨rr, hrr, hsum⟩
    have hrr2 := (List.perm_insertionSort
      (fun a b : TicketRec => a.id ≥ b.id) _).mem_iff.mp hrr
    simp only [updateRec] at hrr2
    rcases List.mem_map.mp hrr2 with ⟨r0, hr0, hrr0⟩
    rcases List.mem_append.mp hr0 with hr0s | hr0r
    · exfalso
      have hne : r0.id ≠ nextRowId store := id_ne_nextRowId hr0s
      rw [if_neg hne] at hrr0
      apply hne
      have hid : s.id = r0.id := by
        rw [← hsum, ← hrr0]
        rfl
      rw [← hid, hsid]
    · have hr0eq : r0 = ⟨nextRowId store, now, t.reporter, t.title, t.body,
          joinCommaL t.urls, t.headers, "queued".data, none⟩ := by
        simpa using hr0r
      subst hr0eq
      rw [if_pos rfl] at hrr0
      rw [← hsum, ← hrr0]
      show urlsOut (joinCommaL t.urls) = t.urls
      exact urlsOut_joinCommaL h

/-- C10 applied to a concrete submission with two comma-free urls and to
one with an empty urls list: Get-by-id returns them unchanged. -/
theorem C10_urls_roundtrip_witness :
    (∀ u ∈ ["https://zoom.us".data, "http://a.b/c".data], u ≠ [] ∧ ',' ∉ u) ∧
    (get_ticket (create_ticket []
        ⟨"alice@example.com".data, "T".data, "B".data,
          ["https://zoom.us".data, "http://a.b/c".data], "h".data⟩ 3
        (.success "ok".data)).store
      (create_ticket []
        ⟨"alice@example.com".data, "T".data, "B".data,
          ["https://zoom.us".data, "http://a.b/c".data], "h".data⟩ 3
        (.success "ok".data)).response.ticket_id).map TicketView.urls =
      some ["https://zoom.us".data, "http://a.b/c".data] ∧
    (get_ticket (create_ticket []
        ⟨"bob@example.com".data, "T".data, "B".data, [], "h".data⟩ 4
        (.failure "boom".data)).store
      (create_ticket []
        ⟨"bob@example.com".data, "T".data, "B".data, [], "h".data⟩ 4
        (.failure "boom".data)).response.ticket_id).map TicketView.urls =
      some [] :=
  ⟨by decide,
    (C10_urls_roundtrip [] ⟨"alice@example.com".data, "T".data, "B".data,
      ["https://zoom.us".data, "http://a.b/c".data], "h".data⟩ 3
      (.success "ok".data) (by decide)).1,
    (C10_urls_roundtrip [] ⟨"bob@example.com".data, "T".data, "B".data, [],
      "h".data⟩ 4 (.failure "boom".data) (by decide)).1⟩
